import Mathlib

set_option maxRecDepth 10000

/-!
Verification of the cs404x auction arena (round coordinator + auction
resolution engine).  The definitions below are a shallow embedding of
`src/cs404x/auctioneer.py` and `src/cs404x/arena.py`:

* Python `float` amounts (budgets, bids) are modelled as `ℤ`.
* Python dictionaries keyed by participant id are modelled as association
  lists `List (PlayerId × ParticipantState)` (Python dicts preserve
  insertion order; duplicate keys never arise because ids are dict keys).
* The four artists ("Da Vinci", "Rembrandt", "Van Gogh", "Picasso") are
  modelled as `Fin 4` in that order; their display values are not used by
  any computation modelled here.
* `random.random()` tie-break draws are modelled as an explicit parameter
  `tb : PlayerId → ℤ`; `random` draws of the painting order are modelled
  as an explicit `painting_order` argument.
* Python code that raises an exception before mutating state (KeyError on
  a missing dict key, TypeError when a `None` bid is compared or
  subtracted, IndexError past the end of a list) is modelled with
  `Option`: `none` means the call raises and produces no new state.
-/

namespace CS404X

abbrev PlayerId := ℕ

/-- Artists, in the dict order of `_artists_and_values`:
`0` = Da Vinci, `1` = Rembrandt, `2` = Van Gogh, `3` = Picasso. -/
abbrev Artist := Fin 4

/-- Embeds `ParticipantState` from `auctioneer.py`.  `paintings_owned` is
total over the four artists (the Python dict is initialised with every
artist mapped to `0`).  `current_bid` is `none` for Python `None`. -/
structure ParticipantState where
  paintings_owned : Artist → ℕ
  budget : ℤ
  score : ℕ
  current_bid : Option ℤ

/-- Embeds `ParticipantState.__init__`: all owned counts 0, score 0,
current bid `None`. -/
def mkParticipantState (budget : ℤ) : ParticipantState :=
  ⟨fun _ => 0, budget, 0, none⟩

/-- Embeds `RoundSummary` from `auctioneer.py`.  The wall-clock
`auction_start` timestamp field is omitted (it is copied opaquely and
never inspected). -/
structure RoundSummary where
  current_round : ℕ
  round_winner : PlayerId
  painting : Artist
  amount_paid : ℤ

/-- Embeds the state of class `Auctioneer`.  The display-only
`_artists_and_values` table and the `_starting_budget` constant are not
separate fields; the starting budget 1001 is applied in `mkAuctioneer`. -/
structure Auctioneer where
  player_won : Bool
  current_round : ℕ
  round_limit : ℕ
  target_collection : List ℕ
  players : List (PlayerId × ParticipantState)
  painting_order : List Artist
  winner_pays : ℕ
  winner_ids : List PlayerId
  amounts_paid : List ℤ

/-- Embeds `Auctioneer.__init__` with the constants from the source:
round limit 200, starting budget 1001, target collection `(3, 3, 1, 1)`,
winner-pays rank hard-coded to 1.  The painting order (random in the
source when not injected) is an explicit argument. -/
def mkAuctioneer (playerIds : List PlayerId) (painting_order : List Artist) :
    Auctioneer where
  player_won := false
  current_round := 0
  round_limit := 200
  target_collection := [3, 3, 1, 1]
  players := playerIds.map (fun p => (p, mkParticipantState 1001))
  painting_order := painting_order
  winner_pays := 1
  winner_ids := []
  amounts_paid := []

/-- Lookup `self._players[player_id]`; `none` models `KeyError`. -/
def lookupPlayer (ps : List (PlayerId × ParticipantState)) (p : PlayerId) :
    Option ParticipantState :=
  (ps.find? (fun e => e.1 == p)).map Prod.snd

/-- Pointwise update of the association list at key `p`. -/
def updatePlayer (ps : List (PlayerId × ParticipantState)) (p : PlayerId)
    (f : ParticipantState → ParticipantState) :
    List (PlayerId × ParticipantState) :=
  ps.map (fun e => if e.1 = p then (e.1, f e.2) else e)

/-- Embeds the property `Auctioneer.finished`. -/
def finished (a : Auctioneer) : Bool :=
  (a.current_round == a.round_limit - 1) || a.player_won

/-- Embeds `Auctioneer.start_round`: every participant's current bid is
set to 0. -/
def start_round (a : Auctioneer) : Auctioneer :=
  { a with players :=
      a.players.map (fun e => (e.1, { e.2 with current_bid := some 0 })) }

/-- Embeds `Auctioneer.register_bid`.  `none` models the `KeyError`
raised when `player_id` is not in the roster (the arena only checks the
waiting pool before calling it). -/
def register_bid (a : Auctioneer) (player_id : PlayerId) (bid : ℤ) :
    Option (Bool × Auctioneer) :=
  match lookupPlayer a.players player_id with
  | none => none
  | some st =>
    if bid ≤ st.budget then
      let ps := updatePlayer a.players player_id
        (fun s => { s with current_bid := some bid })
      some (true, { a with players := ps })
    else
      let ps := updatePlayer a.players player_id
        (fun s => { s with current_bid := some 0 })
      some (false, { a with players := ps })

/-- Sort key used by `_compute_round_winner`: Python's
`(current_bid, random.random())` tuples compare lexicographically, so
`qkeyLe k1 k2` embeds `k1 <= k2` on those tuples. -/
def qkeyLe (k1 k2 : ℤ × ℤ) : Prop :=
  k1.1 < k2.1 ∨ (k1.1 = k2.1 ∧ k1.2 ≤ k2.2)

instance : DecidableRel qkeyLe := fun k1 k2 => by
  unfold qkeyLe; infer_instance

/-- Strict lexicographic comparison of Python `(bid, random())` keys. -/
def qkeyLt (k1 k2 : ℤ × ℤ) : Prop :=
  k1.1 < k2.1 ∨ (k1.1 = k2.1 ∧ k1.2 < k2.2)

/-- Descending order on keyed roster entries: `x` comes before `y` when
`x`'s key is lexicographically at least `y`'s (Python
`sorted(..., reverse=True)`). -/
def entryGE (x y : PlayerId × (ℤ × ℤ)) : Prop := qkeyLe y.2 x.2

instance : DecidableRel entryGE := fun x y => by
  unfold entryGE; infer_instance

instance : IsTotal (PlayerId × (ℤ × ℤ)) entryGE where
  total x y := by
    unfold entryGE qkeyLe
    rcases lt_trichotomy x.2.1 y.2.1 with h | h | h
    · exact Or.inr (Or.inl h)
    · rcases le_total x.2.2 y.2.2 with h2 | h2
      · exact Or.inr (Or.inr ⟨h, h2⟩)
      · exact Or.inl (Or.inr ⟨h.symm, h2⟩)
    · exact Or.inl (Or.inl h)

instance : IsTrans (PlayerId × (ℤ × ℤ)) entryGE where
  trans x y z hxy hyz := by
    unfold entryGE qkeyLe at hxy hyz ⊢
    rcases hxy with h1 | ⟨h1, h1'⟩ <;> rcases hyz with h2 | ⟨h2, h2'⟩
    · exact Or.inl (h2.trans h1)
    · exact Or.inl (h2 ▸ h1)
    · exact Or.inl (h1 ▸ h2)
    · exact Or.inr ⟨h2.trans h1, h2'.trans h1'⟩

/-- Keyed roster entries for the players in `ps`: for each player, the
Python sort key `(self._players[p].current_bid, random())` with the
random draw given by `tb`.  `none` models the `TypeError` Python raises
when some `current_bid` is still `None` (bids are compared, or
subtracted from the winner's budget). -/
def bidKeysList (tb : PlayerId → ℤ) :
    List (PlayerId × ParticipantState) → Option (List (PlayerId × (ℤ × ℤ)))
  | [] => some []
  | e :: rest =>
    match e.2.current_bid with
    | none => none
    | some b => (bidKeysList tb rest).map (fun k => (e.1, (b, tb e.1)) :: k)

/-- Keyed roster of the whole auctioneer. -/
def bidKeys (a : Auctioneer) (tb : PlayerId → ℤ) :
    Option (List (PlayerId × (ℤ × ℤ))) :=
  bidKeysList tb a.players

/-- Embeds `Auctioneer._compute_round_winner`.  The winner is the entry
at index `min(winner_pays, len) - 1` of the roster sorted by
`(current_bid, tb)` descending; the winner's own current bid is
subtracted from their budget and appended to `_amounts_paid`, their
owned count for the round's painting is incremented, and their id is
appended to `_winner_ids`.  `none` models the exceptions raised on an
unset bid, an empty roster, or a round index past the painting order. -/
def compute_round_winner (a : Auctioneer) (tb : PlayerId → ℤ) :
    Option Auctioneer :=
  (bidKeys a tb).bind (fun keyed =>
    let sorted_players := List.insertionSort entryGE keyed
    let bid_position_to_pay := min a.winner_pays sorted_players.length - 1
    (sorted_players.get? bid_position_to_pay).bind (fun winner =>
      (lookupPlayer a.players winner.1).bind (fun winner_state =>
        winner_state.current_bid.bind (fun wbid =>
          (a.painting_order.get? a.current_round).map (fun current_painting =>
            { a with
              players := updatePlayer a.players winner.1 (fun st =>
                { st with
                  budget := st.budget - wbid
                  paintings_owned := fun art =>
                    if art = current_painting then st.paintings_owned art + 1
                    else st.paintings_owned art })
              amounts_paid := a.amounts_paid ++ [wbid]
              winner_ids := a.winner_ids ++ [winner.1] })))))

/-- Maximum of a list of integers; `none` models Python `max([])`
raising `ValueError`. -/
def maxList : List ℤ → Option ℤ
  | [] => none
  | x :: xs => some (xs.foldl max x)

/-- Descending sort of natural-number counts, embedding Python
`sorted(..., reverse=True)` on a list of ints. -/
def sortDescN (l : List ℕ) : List ℕ :=
  List.insertionSort (fun x y => y ≤ x) l

/-- Owned-painting counts in dict order (`paintings_owned.values()`). -/
def ownedValues (st : ParticipantState) : List ℕ :=
  (List.finRange 4).map st.paintings_owned

/-- Embeds the per-participant body of `Auctioneer._update_scores`:
sort the owned counts and the target collection descending, subtract
positionally, and score 1 exactly when the maximum remaining need is
below 1.  `none` models `max([])` raising on an empty target. -/
def update_scores_player (target : List ℕ) (st : ParticipantState) :
    Option ParticipantState :=
  let bot_sorted := sortDescN (ownedValues st)
  let target_sorted := sortDescN target
  let paintings_needed := List.zipWith
    (fun (t o : ℕ) => (t : ℤ) - (o : ℤ)) target_sorted bot_sorted
  match maxList paintings_needed with
  | none => none
  | some m => some { st with score := if m < 1 then 1 else 0 }

/-- The loop of `Auctioneer._update_scores` over the roster entries. -/
def update_scores_list (target : List ℕ) :
    List (PlayerId × ParticipantState) →
    Option (List (PlayerId × ParticipantState))
  | [] => some []
  | e :: rest =>
    match update_scores_player target e.2 with
    | none => none
    | some st' => (update_scores_list target rest).map (fun ps => (e.1, st') :: ps)

/-- Embeds `Auctioneer._update_scores`: every score is recomputed, and
`_player_won` is set when some participant completes the collection
(never cleared). -/
def update_scores (a : Auctioneer) : Option Auctioneer :=
  (update_scores_list a.target_collection a.players).map (fun players' =>
    { a with
      players := players'
      player_won := a.player_won || players'.any (fun e => e.2.score == 1) })

/-- Embeds `Auctioneer.finish_round`: resolve the winner, update the
scores, build the summary, then increment `_current_round` by one. -/
def finish_round (a : Auctioneer) (tb : PlayerId → ℤ) :
    Option (RoundSummary × Auctioneer) :=
  (compute_round_winner a tb).bind (fun a1 =>
    (update_scores a1).bind (fun a2 =>
      (a2.winner_ids.get? a2.current_round).bind (fun round_winner =>
        (a2.painting_order.get? a2.current_round).bind (fun painting =>
          (a2.amounts_paid.get? a2.current_round).map (fun amount_paid =>
            (⟨a2.current_round, round_winner, painting, amount_paid⟩,
              { a2 with current_round := a2.current_round + 1 }))))))

/-- Embeds `Auctioneer.compute_auction_winners`: empty roster gives the
empty list, otherwise every participant whose score equals the maximum
score. -/
def compute_auction_winners (a : Auctioneer) : List PlayerId :=
  match a.players with
  | [] => []
  | e :: rest =>
    let winning_score := (rest.map (fun x => x.2.score)).foldl max e.2.score
    (a.players.filter (fun x => x.2.score == winning_score)).map Prod.fst

/-- Engine operations available to callers of `Auctioneer`, with the
random tie-break draw of a `finish_round` call as an explicit
parameter. -/
inductive EngineOp where
  | startRound : EngineOp
  | registerBid (p : PlayerId) (amount : ℤ) : EngineOp
  | finishRound (tb : PlayerId → ℤ) : EngineOp

/-- One engine operation applied to an auctioneer state; `none` models a
call that raises. -/
def engineStep (a : Auctioneer) : EngineOp → Option Auctioneer
  | .startRound => some (start_round a)
  | .registerBid p amount => (register_bid a p amount).map Prod.snd
  | .finishRound tb => (finish_round a tb).map Prod.snd

/-- A sequence of engine operations, run left to right; `none` when some
call raises. -/
def runOps (a : Auctioneer) : List EngineOp → Option Auctioneer
  | [] => some a
  | op :: rest => (engineStep a op).bind (fun a' => runOps a' rest)

/-- Embeds the relevant state of class `Arena` (`arena.py`).  Waiting
participants form a Python `set` and in-game participants a dict keyed
by id; both are modelled as `Finset`s of ids (display names are
metadata only).  The `asyncio.Event` is a `Bool`, and the auctioneer is
`some` exactly when `self._auction is not None`. -/
structure ArenaState where
  sufficient_players_event : Bool
  bids_received : ℕ
  participants_waiting : Finset PlayerId
  participants_in_game : Finset PlayerId
  auction : Option Auctioneer

/-- Embeds `Arena.in_game`. -/
def ArenaState.in_game (s : ArenaState) : Bool := s.auction.isSome

/-- Embeds `Arena.__init__`. -/
def initialArena : ArenaState := ⟨false, 0, ∅, ∅, none⟩

/-- Embeds `Arena._start_if_possible` (`_MIN_PLAYERS = 2`): the event is
set when no auction is running and at least two participants wait, and
cleared otherwise. -/
def start_if_possible (s : ArenaState) : ArenaState :=
  if ¬ s.in_game ∧ 2 ≤ s.participants_waiting.card then
    { s with sufficient_players_event := true }
  else
    { s with sufficient_players_event := false }

/-- Embeds `Arena.register`: add to the waiting set (the QUEUED reply is
transport-only), then re-evaluate `_start_if_possible`. -/
def Arena.register (s : ArenaState) (p : PlayerId) : ArenaState :=
  start_if_possible
    { s with participants_waiting := insert p s.participants_waiting }

/-- Embeds `Arena.deregister`: discard from the waiting set and pop from
the in-game mapping.  The source does not re-evaluate
`_start_if_possible` here and does not touch `self._auction`. -/
def Arena.deregister (s : ArenaState) (p : PlayerId) : ArenaState :=
  { s with
    participants_waiting := s.participants_waiting.erase p
    participants_in_game := s.participants_in_game.erase p }

/-- Embeds `Arena._setup_auction`: snapshot the waiting set into the
in-game mapping, clear the waiting set, and build a fresh `Auctioneer`
over those ids.  The randomly drawn painting order is an explicit
argument. -/
def setup_auction (s : ArenaState) (order : List Artist) : ArenaState :=
  { s with
    participants_in_game := s.participants_waiting
    participants_waiting := ∅
    auction := some (mkAuctioneer
      (s.participants_waiting.sort (fun x y => x ≤ y)) order) }

/-- Embeds the registry part of `Arena._finish_auction`: drop the
auction, return in-game participants to the waiting set, clear the
in-game mapping, and re-evaluate `_start_if_possible` (the END messages
are transport-only). -/
def finish_auction (s : ArenaState) : ArenaState :=
  start_if_possible
    { s with
      auction := none
      participants_waiting := s.participants_waiting ∪ s.participants_in_game
      participants_in_game := ∅ }

/-- Embeds `Arena._count_bids`: increment the counter; when it equals
the in-game participant count, reset it to zero and notify the barrier
(the returned `Bool` is whether `notify_all` fired). -/
def count_bids (s : ArenaState) : ArenaState × Bool :=
  let n := s.bids_received + 1
  if n = s.participants_in_game.card then
    ({ s with bids_received := 0 }, true)
  else
    ({ s with bids_received := n }, false)

/-- Embeds `Arena._on_bid_reply`: a waiting participant only gets a
warning; otherwise the bid is registered with the auctioneer and only an
accepted (within-budget) bid reaches `_count_bids`.  The returned `Bool`
is whether the bid-collection barrier was notified; `none` models the
exceptions when no auction is running or the participant is not in the
roster. -/
def on_bid_reply (s : ArenaState) (p : PlayerId) (amount : ℤ) :
    Option (ArenaState × Bool) :=
  if p ∈ s.participants_waiting then some (s, false)
  else
    match s.auction with
    | none => none
    | some a =>
      match register_bid a p amount with
      | none => none
      | some (within_budget, a') =>
        let s' := { s with auction := some a' }
        if within_budget then some (count_bids s') else some (s', false)

/-- Run a list of bid replies through `on_bid_reply`, stopping at the
first one that notifies the barrier; the `Bool` reports whether the
barrier was notified. -/
def run_replies (s : ArenaState) : List (PlayerId × ℤ) → Option (ArenaState × Bool)
  | [] => some (s, false)
  | (p, amount) :: rest =>
    match on_bid_reply s p amount with
    | none => none
    | some (s', fired) => if fired then some (s', true) else run_replies s' rest

/-! ### Decidable equality of the model states -/

instance : DecidableEq ParticipantState := fun s1 s2 =>
  decidable_of_iff (s1.paintings_owned = s2.paintings_owned ∧
    s1.budget = s2.budget ∧ s1.score = s2.score ∧
    s1.current_bid = s2.current_bid)
    (by cases s1; cases s2; simp)

instance : DecidableEq RoundSummary := fun s1 s2 =>
  decidable_of_iff (s1.current_round = s2.current_round ∧
    s1.round_winner = s2.round_winner ∧ s1.painting = s2.painting ∧
    s1.amount_paid = s2.amount_paid)
    (by cases s1; cases s2; simp)

instance : DecidableEq Auctioneer := fun a1 a2 =>
  decidable_of_iff (a1.player_won = a2.player_won ∧
    a1.current_round = a2.current_round ∧ a1.round_limit = a2.round_limit ∧
    a1.target_collection = a2.target_collection ∧ a1.players = a2.players ∧
    a1.painting_order = a2.painting_order ∧
    a1.winner_pays = a2.winner_pays ∧ a1.winner_ids = a2.winner_ids ∧
    a1.amounts_paid = a2.amounts_paid)
    (by cases a1; cases a2; simp)

/-! ### Invariant predicates and reachability relations -/

/-- Every set current bid is non-negative. -/
def bidsNonneg (a : Auctioneer) : Prop :=
  ∀ q st b, lookupPlayer a.players q = some st →
    st.current_bid = some b → 0 ≤ b

/-- Every roster budget is non-negative. -/
def budgetsNonneg (a : Auctioneer) : Prop :=
  ∀ q st, lookupPlayer a.players q = some st → 0 ≤ st.budget

/-- Every participant has a set current bid that is at most their
budget. -/
def bidsWithinBudget (a : Auctioneer) : Prop :=
  ∀ q st, lookupPlayer a.players q = some st →
    ∃ b, st.current_bid = some b ∧ b ≤ st.budget

/-- The operation's bid amount, when it has one, is non-negative. -/
def opAmountNonneg : EngineOp → Prop
  | .registerBid _ amount => 0 ≤ amount
  | _ => True

/-- Engine states reachable by operation sequences that follow the
coordinator's round discipline: `finish_round` is called only inside a
round opened by `start_round`, at most once per round (the flag records
whether a round is currently open).  `Arena.game_loop` and `_run_round`
call the engine exactly in this shape. -/
inductive EReach : Bool → Auctioneer → Prop
  | init (pids : List PlayerId) (order : List Artist) :
      EReach false (mkAuctioneer pids order)
  | startR {f : Bool} {a : Auctioneer} (h : EReach f a) :
      EReach true (start_round a)
  | registerR {f : Bool} {a : Auctioneer} {p : PlayerId} {amount : ℤ}
      {ok : Bool} {a' : Auctioneer} (h : EReach f a)
      (hr : register_bid a p amount = some (ok, a')) : EReach f a'
  | finishR {a : Auctioneer} {tb : PlayerId → ℤ} {s : RoundSummary}
      {a' : Auctioneer} (h : EReach true a)
      (hf : finish_round a tb = some (s, a')) : EReach false a'

/-- Engine states reachable under the coordinator's loop, which resolves
a round (`finish_round`) only while the engine is not `finished`
(`while not self._auction.finished` in `Arena.game_loop`). -/
inductive LoopReach : Auctioneer → Prop
  | init (pids : List PlayerId) (order : List Artist) :
      LoopReach (mkAuctioneer pids order)
  | startR {a : Auctioneer} (h : LoopReach a) : LoopReach (start_round a)
  | registerR {a : Auctioneer} {p : PlayerId} {amount : ℤ} {ok : Bool}
      {a' : Auctioneer} (h : LoopReach a)
      (hr : register_bid a p amount = some (ok, a')) : LoopReach a'
  | finishR {a : Auctioneer} {tb : PlayerId → ℤ} {s : RoundSummary}
      {a' : Auctioneer} (h : LoopReach a) (hnf : finished a = false)
      (hf : finish_round a tb = some (s, a')) : LoopReach a'

/-- Multiset dominance as the spec words it: compared position by
position, each owned count (sorted descending) is at least the
corresponding target count (sorted descending). -/
def dominates (target owned : List ℕ) : Prop :=
  ∀ pr ∈ List.zip (sortDescN target) (sortDescN owned), pr.1 ≤ pr.2

instance (target owned : List ℕ) : Decidable (dominates target owned) := by
  unfold dominates
  infer_instance

/-! ### Concrete demonstration states -/

/-- A fixed painting order: 200 rounds of artist 0 (Da Vinci). -/
def demo_order : List Artist := List.replicate 200 0

/-- A fresh two-player auction as `_setup_auction` builds it. -/
def demoA : Auctioneer := mkAuctioneer [0, 1] demo_order

/-- The two-player auction with a round started. -/
def demoStarted : Auctioneer := start_round demoA

/-- Roster state after player 0's bid of 1000 was accepted. -/
def c6_mid : Auctioneer :=
  ((register_bid demoStarted 0 1000).map Prod.snd).getD demoA

/-- State after one `finish_round` on `c6_mid` (player 0 pays 1000). -/
def c6_finpair : RoundSummary × Auctioneer :=
  (finish_round c6_mid (fun _ => 0)).getD (⟨0, 0, 0, 0⟩, demoA)

/-- Participant 0's state after that round. -/
def c6_fin_state : ParticipantState :=
  (lookupPlayer c6_finpair.2.players 0).getD (mkParticipantState 0)

/-- Roster state with bids 5 (player 0) and 3 (player 1) registered. -/
def c3_pre : Auctioneer :=
  ((register_bid (((register_bid demoStarted 0 5).map Prod.snd).getD demoA)
    1 3).map Prod.snd).getD demoA

/-- Result of resolving that round with all tie-break draws 0. -/
def c3_res : Auctioneer :=
  (compute_round_winner c3_pre (fun _ => 0)).getD demoA

/-- Participant 0's state in `c3_pre`. -/
def c3_s0 : ParticipantState :=
  (lookupPlayer c3_pre.players 0).getD (mkParticipantState 0)

/-- Participant 1's state in `c3_pre`. -/
def c3_s1 : ParticipantState :=
  (lookupPlayer c3_pre.players 1).getD (mkParticipantState 0)

/-- Owned counts `{Da Vinci: 3, Rembrandt: 3, Van Gogh: 1, Picasso: 1}`. -/
def c4_owned : Artist → ℕ := fun i => if i = 0 then 3 else if i = 1 then 3 else 1

/-- A participant owning the full `(3, 3, 1, 1)` collection. -/
def c4_state : ParticipantState := ⟨c4_owned, 500, 0, some 0⟩

/-- An auction in round 5 of 200 whose single participant owns the full
collection. -/
def c4_auctioneer : Auctioneer :=
  ⟨false, 5, 200, [3, 3, 1, 1], [(0, c4_state)], demo_order, 1, [], []⟩

/-- The result of `_update_scores` on `c4_auctioneer`. -/
def c4_result : Auctioneer := (update_scores c4_auctioneer).getD c4_auctioneer

/-- Participant 0's state inside `c4_result`. -/
def c4_result_state : ParticipantState :=
  (lookupPlayer c4_result.players 0).getD c4_state

/-- A participant with budget 100 and no bid yet, under id 7. -/
def c7_part : ParticipantState := ⟨fun _ => 0, 100, 0, some 0⟩

/-- An auction whose only participant has budget 100. -/
def c7_auctioneer : Auctioneer :=
  ⟨false, 0, 200, [3, 3, 1, 1], [(7, c7_part)], demo_order, 1, [], []⟩

/-- Arena state mid-round: players 0 and 1 in game, none waiting, a
fresh round just started, no bids counted yet. -/
def c1_arena : ArenaState := ⟨false, 0, ∅, {0, 1}, some demoStarted⟩

/-- Participant 0's engine state inside `demoStarted`. -/
def c1_p0_state : ParticipantState :=
  (lookupPlayer demoStarted.players 0).getD (mkParticipantState 0)

/-- Arena state after `register 0; register 1; deregister 0` from the
initial state. -/
def c2_state : ArenaState :=
  Arena.deregister (Arena.register (Arena.register initialArena 0) 1) 0

/-- Arena state whose auction is `demoA` with both players in game. -/
def c10_arena : ArenaState := ⟨false, 0, ∅, {0, 1}, some demoA⟩

/-- Round resolution of the all-zero-bid round under a tie-break that
favours player 1. -/
def c10_res : Auctioneer :=
  (compute_round_winner demoStarted (fun q => if q = 1 then 1 else 0)).getD demoA

/-! ### Association-list lemmas -/

theorem lookup_cons (x : PlayerId × ParticipantState)
    (l : List (PlayerId × ParticipantState)) (q : PlayerId) :
    lookupPlayer (x :: l) q =
      if x.1 = q then some x.2 else lookupPlayer l q := by
  by_cases h : x.1 = q
  · rw [if_pos h]
    unfold lookupPlayer
    rw [List.find?_cons_of_pos _ (by simp [h])]
    rfl
  · rw [if_neg h]
    unfold lookupPlayer
    rw [List.find?_cons_of_neg _ (by simp [h])]

theorem lookup_update (ps : List (PlayerId × ParticipantState)) (p : PlayerId)
    (f : ParticipantState → ParticipantState) (q : PlayerId) :
    lookupPlayer (updatePlayer ps p f) q =
      (lookupPlayer ps q).map (fun st => if q = p then f st else st) := by
  induction ps with
  | nil => simp [lookupPlayer, updatePlayer]
  | cons e rest ih =>
    simp only [updatePlayer, List.map_cons] at ih ⊢
    by_cases hp : e.1 = p
    · rw [if_pos hp]
      by_cases hq : e.1 = q
      · have hqp : q = p := hq.symm.trans hp
        simp [lookup_cons, hq, hqp]
      · rw [lookup_cons, lookup_cons, if_neg hq, if_neg hq]
        exact ih
    · rw [if_neg hp]
      by_cases hq : e.1 = q
      · have hqp : ¬ q = p := fun h => hp (hq.trans h)
        simp [lookup_cons, hq, hqp]
      · rw [lookup_cons, lookup_cons, if_neg hq, if_neg hq]
        exact ih

theorem lookup_mapStates (ps : List (PlayerId × ParticipantState))
    (g : ParticipantState → ParticipantState) (q : PlayerId) :
    lookupPlayer (ps.map (fun e => (e.1, g e.2))) q =
      (lookupPlayer ps q).map g := by
  induction ps with
  | nil => simp [lookupPlayer]
  | cons e rest ih =>
    simp only [List.map_cons] at ih ⊢
    by_cases hq : e.1 = q
    · simp [lookup_cons, hq]
    · rw [lookup_cons, lookup_cons, if_neg hq, if_neg hq]
      exact ih

theorem keys_update (ps : List (PlayerId × ParticipantState)) (p : PlayerId)
    (f : ParticipantState → ParticipantState) :
    (updatePlayer ps p f).map Prod.fst = ps.map Prod.fst := by
  induction ps with
  | nil => rfl
  | cons e rest ih =>
    by_cases hp : e.1 = p <;>
      simp only [updatePlayer, List.map_cons, if_pos, if_neg, hp, reduceIte] at ih ⊢ <;>
      simp_all [updatePlayer]

theorem keys_mapStates (ps : List (PlayerId × ParticipantState))
    (g : ParticipantState → ParticipantState) :
    (ps.map (fun e => (e.1, g e.2))).map Prod.fst = ps.map Prod.fst := by
  induction ps with
  | nil => rfl
  | cons e rest ih => simp_all

theorem lookup_mem {ps : List (PlayerId × ParticipantState)} {p : PlayerId}
    {st : ParticipantState} (h : lookupPlayer ps p = some st) : (p, st) ∈ ps := by
  unfold lookupPlayer at h
  obtain ⟨e, he, hee⟩ := Option.map_eq_some'.mp h
  have hmem := List.mem_of_find?_eq_some he
  have hpred := List.find?_some he
  have : e.1 = p := by simpa [beq_iff_eq] using hpred
  have : (p, st) = e := by
    cases e
    simp_all
  rwa [this]

theorem nodup_keys_entry_eq {ps : List (PlayerId × ParticipantState)}
    (hnd : (ps.map Prod.fst).Nodup) {e1 e2 : PlayerId × ParticipantState}
    (h1 : e1 ∈ ps) (h2 : e2 ∈ ps) (hk : e1.1 = e2.1) : e1 = e2 := by
  induction ps with
  | nil => cases h1
  | cons e rest ih =>
    simp only [List.map_cons, List.nodup_cons] at hnd
    rcases List.mem_cons.mp h1 with rfl | h1' <;>
      rcases List.mem_cons.mp h2 with rfl | h2'
    · rfl
    · exact absurd (hk ▸ List.mem_map_of_mem Prod.fst h2') hnd.1
    · exact absurd (hk ▸ List.mem_map_of_mem Prod.fst h1') hnd.1
    · exact ih hnd.2 h1' h2'

theorem lookup_of_mem_nodup {ps : List (PlayerId × ParticipantState)}
    (hnd : (ps.map Prod.fst).Nodup) {p : PlayerId} {st : ParticipantState}
    (hmem : (p, st) ∈ ps) : lookupPlayer ps p = some st := by
  induction ps with
  | nil => cases hmem
  | cons e rest ih =>
    simp only [List.map_cons, List.nodup_cons] at hnd
    rcases List.mem_cons.mp hmem with rfl | hmem'
    · simp [lookupPlayer, List.find?_cons]
    · have hne : e.1 ≠ p := by
        intro he
        exact hnd.1 (he ▸ List.mem_map_of_mem Prod.fst hmem')
      simp only [lookupPlayer, List.find?_cons,
        show (e.1 == p) = false by simp [hne], Bool.false_eq_true, reduceIte]
      exact ih hnd.2 hmem'

theorem lookup_const {pids : List PlayerId} {c : ParticipantState} {q : PlayerId}
    {st : ParticipantState}
    (h : lookupPlayer (pids.map (fun p => (p, c))) q = some st) : st = c := by
  have hmem := lookup_mem h
  obtain ⟨p, _, hpc⟩ := List.mem_map.mp hmem
  exact (congrArg Prod.snd hpc).symm

/-! ### Lemmas about `maxList` -/

theorem le_foldl_max (l : List ℤ) :
    ∀ a : ℤ, a ≤ l.foldl max a ∧ ∀ x ∈ l, x ≤ l.foldl max a := by
  induction l with
  | nil => intro a; simp
  | cons b l ih =>
    intro a
    have h := ih (max a b)
    refine ⟨le_trans (le_max_left a b) h.1, ?_⟩
    intro x hx
    rcases List.mem_cons.mp hx with rfl | hx'
    · exact le_trans (le_max_right a x) h.1
    · exact h.2 x hx'

theorem foldl_max_mem (l : List ℤ) :
    ∀ a : ℤ, l.foldl max a = a ∨ l.foldl max a ∈ l := by
  induction l with
  | nil => intro a; simp
  | cons b l ih =>
    intro a
    rcases ih (max a b) with h | h
    · rcases max_choice a b with hab | hab
      · exact Or.inl (by rw [List.foldl_cons, h, hab])
      · exact Or.inr (by rw [List.foldl_cons, h, hab]; exact List.mem_cons_self b l)
    · exact Or.inr (List.mem_cons_of_mem b h)

theorem maxList_spec {l : List ℤ} {m : ℤ} (h : maxList l = some m) :
    m ∈ l ∧ ∀ x ∈ l, x ≤ m := by
  match l, h with
  | x :: xs, h =>
    have hm : m = xs.foldl max x := by
      simpa [maxList] using h.symm
    subst hm
    constructor
    · rcases foldl_max_mem xs x with h' | h'
      · rw [h']; exact List.mem_cons_self x xs
      · exact List.mem_cons_of_mem x h'
    · intro y hy
      rcases List.mem_cons.mp hy with rfl | hy'
      · exact (le_foldl_max xs y).1
      · exact (le_foldl_max xs x).2 y hy'

theorem maxList_lt_iff {l : List ℤ} {m c : ℤ} (h : maxList l = some m) :
    (m < c ↔ ∀ x ∈ l, x < c) := by
  obtain ⟨hmem, hle⟩ := maxList_spec h
  exact ⟨fun hm x hx => lt_of_le_of_lt (hle x hx) hm, fun hall => hall m hmem⟩

/-! ### Lemmas about the descending insertion sort -/

theorem qkeyLe_refl (k : ℤ × ℤ) : qkeyLe k k := Or.inr ⟨rfl, le_rfl⟩

theorem qkeyLt_not_le {k1 k2 : ℤ × ℤ} (h : qkeyLt k1 k2) : ¬ qkeyLe k2 k1 := by
  rcases h with h | ⟨h, h'⟩ <;> rintro (hc | ⟨hc, hc'⟩)
  · exact absurd (h.trans hc) (lt_irrefl _)
  · rw [hc] at h; exact absurd h (lt_irrefl _)
  · rw [h] at hc; exact absurd hc (lt_irrefl _)
  · exact absurd (lt_of_lt_of_le h' hc') (lt_irrefl _)

theorem sorted_head_max {l : List (PlayerId × (ℤ × ℤ))}
    {x : PlayerId × (ℤ × ℤ)} {rest : List (PlayerId × (ℤ × ℤ))}
    (h : List.insertionSort entryGE l = x :: rest) :
    ∀ y ∈ l, entryGE x y := by
  intro y hy
  have hperm := (List.perm_insertionSort entryGE l).symm
  have hy' : y ∈ x :: rest := h ▸ hperm.mem_iff.mp hy
  rcases List.mem_cons.mp hy' with rfl | hy''
  · exact qkeyLe_refl y.2
  · have hsorted := List.sorted_insertionSort entryGE l
    rw [h] at hsorted
    exact List.rel_of_sorted_cons hsorted y hy''

theorem insertionSort_head_of_strict_max {l : List (PlayerId × (ℤ × ℤ))}
    {x : PlayerId × (ℤ × ℤ)} (hx : x ∈ l)
    (hdom : ∀ y ∈ l, y ≠ x → qkeyLt y.2 x.2) :
    ∃ rest, List.insertionSort entryGE l = x :: rest := by
  cases hs : List.insertionSort entryGE l with
  | nil =>
    have hlen := (List.perm_insertionSort entryGE l).length_eq
    rw [hs] at hlen
    have : l = [] := List.length_eq_zero.mp (by simpa using hlen.symm)
    rw [this] at hx
    cases hx
  | cons h0 rest =>
    have hh0 : h0 ∈ l := (List.perm_insertionSort entryGE l).mem_iff.mp
      (hs ▸ List.mem_cons_self h0 rest)
    by_cases heq : h0 = x
    · exact ⟨rest, by rw [heq]⟩
    · have hlt := hdom h0 hh0 heq
      have hge := sorted_head_max hs x hx
      exact absurd hge (qkeyLt_not_le hlt)

/-! ### Lemmas about `bidKeysList` -/

theorem bidKeysList_spec (tb : PlayerId → ℤ) :
    ∀ (ps : List (PlayerId × ParticipantState))
      (keyed : List (PlayerId × (ℤ × ℤ))),
      bidKeysList tb ps = some keyed →
      keyed.map Prod.fst = ps.map Prod.fst ∧
      (∀ r ∈ keyed, ∃ st, (r.1, st) ∈ ps ∧ st.current_bid = some r.2.1 ∧
        r.2.2 = tb r.1) ∧
      (∀ e ∈ ps, ∃ b, e.2.current_bid = some b ∧ (e.1, (b, tb e.1)) ∈ keyed) := by
  intro ps
  induction ps with
  | nil =>
    intro keyed h
    simp only [bidKeysList, Option.some.injEq] at h
    subst h
    simp
  | cons e rest ih =>
    intro keyed h
    simp only [bidKeysList] at h
    cases hb : e.2.current_bid with
    | none => rw [hb] at h; cases h
    | some b =>
      rw [hb] at h
      obtain ⟨k, hk, hkeyed⟩ := Option.map_eq_some'.mp h
      obtain ⟨ihkeys, ihmem, ihall⟩ := ih k hk
      subst hkeyed
      refine ⟨by simp [ihkeys], ?_, ?_⟩
      · intro r hr
        rcases List.mem_cons.mp hr with rfl | hr'
        · exact ⟨e.2, by simp [hb]⟩
        · obtain ⟨st, hst, hbid, htb⟩ := ihmem r hr'
          exact ⟨st, List.mem_cons_of_mem e hst, hbid, htb⟩
      · intro e' he'
        rcases List.mem_cons.mp he' with rfl | he''
        · exact ⟨b, hb, by simp⟩
        · obtain ⟨b', hb', hmem⟩ := ihall e' he''
          exact ⟨b', hb', List.mem_cons_of_mem _ hmem⟩

theorem bidKeysList_some_of_some (tb tb2 : PlayerId → ℤ) :
    ∀ (ps : List (PlayerId × ParticipantState))
      (keyed : List (PlayerId × (ℤ × ℤ))),
      bidKeysList tb ps = some keyed →
      ∃ keyed2, bidKeysList tb2 ps = some keyed2 := by
  intro ps
  induction ps with
  | nil => intro keyed _; exact ⟨[], rfl⟩
  | cons e rest ih =>
    intro keyed h
    simp only [bidKeysList] at h ⊢
    cases hb : e.2.current_bid with
    | none => rw [hb] at h; cases h
    | some b =>
      rw [hb] at h
      obtain ⟨k, hk, _⟩ := Option.map_eq_some'.mp h
      obtain ⟨k2, hk2⟩ := ih k hk
      refine ⟨(e.1, (b, tb2 e.1)) :: k2, ?_⟩
      rw [hk2]
      rfl

/-! ### Characterisation of the engine operations -/

theorem register_bid_spec {a : Auctioneer} {p : PlayerId} {bid : ℤ}
    {ok : Bool} {a' : Auctioneer} (h : register_bid a p bid = some (ok, a')) :
    ∃ st, lookupPlayer a.players p = some st ∧
      (ok = true ↔ bid ≤ st.budget) ∧
      a'.players = updatePlayer a.players p (fun s =>
        { s with current_bid := some (if bid ≤ st.budget then bid else 0) }) ∧
      a'.player_won = a.player_won ∧ a'.current_round = a.current_round ∧
      a'.round_limit = a.round_limit ∧
      a'.target_collection = a.target_collection ∧
      a'.painting_order = a.painting_order ∧ a'.winner_pays = a.winner_pays ∧
      a'.winner_ids = a.winner_ids ∧ a'.amounts_paid = a.amounts_paid := by
  cases hl : lookupPlayer a.players p with
  | none => simp [register_bid, hl] at h
  | some st =>
    simp only [register_bid, hl] at h
    refine ⟨st, rfl, ?_⟩
    by_cases hle : bid ≤ st.budget
    · rw [if_pos hle] at h
      obtain ⟨hok, ha'⟩ := Prod.mk.inj (Option.some.inj h)
      subst ha'
      simp [← hok, hle]
    · rw [if_neg hle] at h
      obtain ⟨hok, ha'⟩ := Prod.mk.inj (Option.some.inj h)
      subst ha'
      simp [← hok, hle]

theorem update_scores_player_spec {t : List ℕ} {st st' : ParticipantState}
    (h : update_scores_player t st = some st') :
    st'.paintings_owned = st.paintings_owned ∧ st'.budget = st.budget ∧
    st'.current_bid = st.current_bid ∧
    ∃ m, maxList (List.zipWith (fun (tc oc : ℕ) => (tc : ℤ) - (oc : ℤ))
        (sortDescN t) (sortDescN (ownedValues st))) = some m ∧
      st'.score = if m < 1 then 1 else 0 := by
  cases hm : maxList (List.zipWith (fun (tc oc : ℕ) => (tc : ℤ) - (oc : ℤ))
      (sortDescN t) (sortDescN (ownedValues st))) with
  | none => simp [update_scores_player, hm] at h
  | some m =>
    simp only [update_scores_player, hm] at h
    obtain ha' := Option.some.inj h
    subst ha'
    exact ⟨rfl, rfl, rfl, m, rfl, rfl⟩

theorem update_scores_list_spec (t : List ℕ) :
    ∀ (ps ps' : List (PlayerId × ParticipantState)),
      update_scores_list t ps = some ps' →
      (∀ q, lookupPlayer ps' q =
        (lookupPlayer ps q).bind (update_scores_player t)) ∧
      ps'.map Prod.fst = ps.map Prod.fst := by
  intro ps
  induction ps with
  | nil =>
    intro ps' h
    obtain h' := (Option.some.injEq ..).mp h
    subst h'
    exact ⟨fun q => rfl, rfl⟩
  | cons e rest ih =>
    intro ps' h
    simp only [update_scores_list] at h
    cases hu : update_scores_player t e.2 with
    | none => rw [hu] at h; cases h
    | some st' =>
      rw [hu] at h
      obtain ⟨k, hk, hps'⟩ := Option.map_eq_some'.mp h
      obtain ⟨ihlookup, ihkeys⟩ := ih k hk
      subst hps'
      constructor
      · intro q
        rw [lookup_cons, lookup_cons]
        by_cases hq : e.1 = q
        · rw [if_pos hq, if_pos hq]
          exact hu.symm
        · rw [if_neg hq, if_neg hq]
          exact ihlookup q
      · simp [ihkeys]

theorem update_scores_spec {a a' : Auctioneer} (h : update_scores a = some a') :
    (∀ q, lookupPlayer a'.players q =
      (lookupPlayer a.players q).bind
        (update_scores_player a.target_collection)) ∧
    a'.players.map Prod.fst = a.players.map Prod.fst ∧
    a'.player_won = (a.player_won ||
      a'.players.any (fun e => e.2.score == 1)) ∧
    a'.current_round = a.current_round ∧ a'.round_limit = a.round_limit ∧
    a'.winner_ids = a.winner_ids ∧ a'.amounts_paid = a.amounts_paid ∧
    a'.painting_order = a.painting_order ∧
    a'.winner_pays = a.winner_pays ∧
    a'.target_collection = a.target_collection := by
  unfold update_scores at h
  obtain ⟨ps', hps', ha'⟩ := Option.map_eq_some'.mp h
  subst ha'
  obtain ⟨hlook, hkeys⟩ :=
    update_scores_list_spec a.target_collection a.players ps' hps'
  exact ⟨hlook, hkeys, rfl, rfl, rfl, rfl, rfl, rfl, rfl, rfl⟩

theorem compute_round_winner_spec {a : Auctioneer} {tb : PlayerId → ℤ}
    {a' : Auctioneer} (h : compute_round_winner a tb = some a') :
    ∃ w wst b painting,
      lookupPlayer a.players w = some wst ∧
      wst.current_bid = some b ∧
      a.painting_order.get? a.current_round = some painting ∧
      a'.players = updatePlayer a.players w (fun st =>
        { st with
          budget := st.budget - b
          paintings_owned := fun art =>
            if art = painting then st.paintings_owned art + 1
            else st.paintings_owned art }) ∧
      a'.amounts_paid = a.amounts_paid ++ [b] ∧
      a'.winner_ids = a.winner_ids ++ [w] ∧
      a'.player_won = a.player_won ∧ a'.current_round = a.current_round ∧
      a'.round_limit = a.round_limit ∧
      a'.target_collection = a.target_collection ∧
      a'.painting_order = a.painting_order ∧ a'.winner_pays = a.winner_pays ∧
      (a.winner_pays = 1 → (a.players.map Prod.fst).Nodup →
        ∀ q st bq, lookupPlayer a.players q = some st →
          st.current_bid = some bq → bq ≤ b) := by
  unfold compute_round_winner at h
  obtain ⟨keyed, hkeyed, h⟩ := Option.bind_eq_some.mp h
  simp only at h
  obtain ⟨winner, hwinner, h⟩ := Option.bind_eq_some.mp h
  obtain ⟨wst, hwst, h⟩ := Option.bind_eq_some.mp h
  obtain ⟨b, hb, h⟩ := Option.bind_eq_some.mp h
  obtain ⟨painting, hpainting, ha'⟩ := Option.map_eq_some'.mp h
  subst ha'
  refine ⟨winner.1, wst, b, painting, hwst, hb, hpainting, rfl, rfl, rfl,
    rfl, rfl, rfl, rfl, rfl, rfl, ?_⟩
  intro hwp hnd q st bq hq hbq
  rw [hwp] at hwinner
  obtain ⟨hkeys, hmem, hall⟩ := bidKeysList_spec tb a.players keyed hkeyed
  cases hs : List.insertionSort entryGE keyed with
  | nil => rw [hs] at hwinner; simp at hwinner
  | cons x rest =>
    rw [hs] at hwinner
    have hidx : min 1 (x :: rest).length - 1 = 0 := by
      simp
    rw [hidx] at hwinner
    have hwx : x = winner := Option.some.inj (by simpa using hwinner)
    have hxmem : x ∈ keyed := (List.perm_insertionSort entryGE keyed).mem_iff.mp
      (hs ▸ List.mem_cons_self x rest)
    have hhead := sorted_head_max hs
    obtain ⟨st0, hst0mem, hst0bid, _⟩ := hmem x hxmem
    have hlook0 : lookupPlayer a.players x.1 = some st0 :=
      lookup_of_mem_nodup hnd hst0mem
    have hst0w : st0 = wst := Option.some.inj ((hwx ▸ hlook0).symm.trans hwst)
    have hbx : b = x.2.1 := by
      rw [hst0w] at hst0bid
      exact Option.some.inj (hb.symm.trans hst0bid)
    obtain ⟨bq', hbq', hmemk⟩ := hall (q, st) (lookup_mem hq)
    have hbqq : bq' = bq := Option.some.inj (hbq'.symm.trans hbq)
    have hge := hhead (q, (bq', tb q)) hmemk
    rw [hbqq] at hge
    rw [hbx]
    rcases hge with hlt | ⟨heq, _⟩
    · exact le_of_lt hlt
    · exact le_of_eq heq

theorem finish_round_parts {a : Auctioneer} {tb : PlayerId → ℤ}
    {s : RoundSummary} {a' : Auctioneer}
    (h : finish_round a tb = some (s, a')) :
    ∃ a1 a2, compute_round_winner a tb = some a1 ∧
      update_scores a1 = some a2 ∧
      a'.players = a2.players ∧ a'.current_round = a2.current_round + 1 ∧
      a'.winner_ids = a2.winner_ids ∧ a'.amounts_paid = a2.amounts_paid ∧
      a'.player_won = a2.player_won ∧ a'.round_limit = a2.round_limit ∧
      a'.target_collection = a2.target_collection ∧
      a'.painting_order = a2.painting_order ∧
      a'.winner_pays = a2.winner_pays := by
  unfold finish_round at h
  obtain ⟨a1, ha1, h⟩ := Option.bind_eq_some.mp h
  obtain ⟨a2, ha2, h⟩ := Option.bind_eq_some.mp h
  obtain ⟨rw0, hrw, h⟩ := Option.bind_eq_some.mp h
  obtain ⟨pt, hpt, h⟩ := Option.bind_eq_some.mp h
  obtain ⟨amt, hamt, hfin⟩ := Option.map_eq_some'.mp h
  obtain ⟨hsum, ha'⟩ := Prod.mk.inj hfin
  subst ha'
  exact ⟨a1, a2, ha1, ha2, rfl, rfl, rfl, rfl, rfl, rfl, rfl, rfl, rfl⟩

theorem lookup_isSome_iff {ps : List (PlayerId × ParticipantState)}
    {q : PlayerId} :
    (lookupPlayer ps q).isSome = true ↔ q ∈ ps.map Prod.fst := by
  induction ps with
  | nil => simp [lookupPlayer]
  | cons e rest ih =>
    rw [lookup_cons]
    by_cases hq : e.1 = q
    · simp [hq]
    · simp only [if_neg hq, List.map_cons, List.mem_cons, ih]
      constructor
      · exact fun h => Or.inr h
      · rintro (h | h)
        · exact absurd h.symm hq
        · exact h

theorem needed_lt_iff :
    ∀ (t o : List ℕ),
      ((∀ x ∈ List.zipWith (fun (tc oc : ℕ) => (tc : ℤ) - (oc : ℤ)) t o, x < 1) ↔
        ∀ pr ∈ List.zip t o, pr.1 ≤ pr.2) := by
  intro t
  induction t with
  | nil => intro o; simp
  | cons tc t ih =>
    intro o
    cases o with
    | nil => simp
    | cons oc o =>
      simp only [List.zipWith_cons_cons, List.zip_cons_cons, List.mem_cons,
        forall_eq_or_imp]
      constructor
      · rintro ⟨h1, h2⟩
        refine ⟨?_, (ih o).mp h2⟩
        have : (tc : ℤ) < (oc : ℤ) + 1 := by omega
        exact_mod_cast Int.lt_add_one_iff.mp this
      · rintro ⟨h1, h2⟩
        refine ⟨?_, (ih o).mpr h2⟩
        have : (tc : ℤ) ≤ (oc : ℤ) := by exact_mod_cast h1
        omega

theorem start_if_possible_spec (s : ArenaState) :
    (start_if_possible s).participants_waiting = s.participants_waiting ∧
    (start_if_possible s).participants_in_game = s.participants_in_game ∧
    (start_if_possible s).auction = s.auction ∧
    (start_if_possible s).bids_received = s.bids_received ∧
    ((start_if_possible s).sufficient_players_event = true ↔
      (s.in_game = false ∧ 2 ≤ s.participants_waiting.card)) := by
  unfold start_if_possible
  by_cases h : ¬ s.in_game ∧ 2 ≤ s.participants_waiting.card
  · rw [if_pos h]
    refine ⟨rfl, rfl, rfl, rfl, ?_⟩
    simp only [Bool.not_eq_true] at h
    simp [h.1, h.2]
  · rw [if_neg h]
    refine ⟨rfl, rfl, rfl, rfl, ?_⟩
    simp only [Bool.not_eq_true] at h
    constructor
    · intro hc; cases hc
    · intro ⟨h1, h2⟩
      exact absurd ⟨by simp [h1], h2⟩ h

theorem finish_round_budget_effect {a : Auctioneer} {tb : PlayerId → ℤ}
    {s : RoundSummary} {a' : Auctioneer}
    (h : finish_round a tb = some (s, a')) :
    ∃ w b,
      (∃ wst, lookupPlayer a.players w = some wst ∧
        wst.current_bid = some b) ∧
      (∀ q, (lookupPlayer a'.players q).isSome =
        (lookupPlayer a.players q).isSome) ∧
      (∀ q st st', lookupPlayer a.players q = some st →
        lookupPlayer a'.players q = some st' →
        st'.current_bid = st.current_bid ∧
        st'.budget = (if q = w then st.budget - b else st.budget)) := by
  obtain ⟨a1, a2, ha1, ha2, hpl, _, _, _, _, _, _, _, _⟩ := finish_round_parts h
  obtain ⟨w, wst, b, painting, hwlook, hwbid, _, hps1, _, _, _, _, _, _, _, _, _⟩ :=
    compute_round_winner_spec ha1
  obtain ⟨hlook2, hkeys2, _, _, _, _, _, _, _, _⟩ := update_scores_spec ha2
  refine ⟨w, b, ⟨wst, hwlook, hwbid⟩, ?_, ?_⟩
  · intro q
    have h1 : (lookupPlayer a2.players q).isSome =
        (lookupPlayer a1.players q).isSome := by
      rw [Bool.eq_iff_iff, lookup_isSome_iff, lookup_isSome_iff, hkeys2]
    have h2 : (lookupPlayer a1.players q).isSome =
        (lookupPlayer a.players q).isSome := by
      rw [Bool.eq_iff_iff, lookup_isSome_iff, lookup_isSome_iff, hps1,
        keys_update]
    rw [hpl, h1, h2]
  · intro q st st' hst hst'
    rw [hpl] at hst'
    rw [hlook2 q] at hst'
    rw [hps1, lookup_update, hst] at hst'
    simp only [Option.map_some', Option.some_bind] at hst'
    obtain ⟨howned, hbudget, hbid, _⟩ := update_scores_player_spec hst'
    by_cases hqw : q = w
    · rw [if_pos hqw] at hbudget hbid ⊢
      exact ⟨hbid, hbudget⟩
    · rw [if_neg hqw] at hbudget hbid ⊢
      exact ⟨hbid, hbudget⟩

theorem compute_round_winner_eq_of_sorted_head {a : Auctioneer}
    {tb2 : PlayerId → ℤ} {keyed2 : List (PlayerId × (ℤ × ℤ))}
    {x : PlayerId × (ℤ × ℤ)} {rest : List (PlayerId × (ℤ × ℤ))}
    {stp : ParticipantState} {bx : ℤ} {painting : Artist}
    (hwp : a.winner_pays = 1)
    (hk2 : bidKeys a tb2 = some keyed2)
    (hs2 : List.insertionSort entryGE keyed2 = x :: rest)
    (hlp : lookupPlayer a.players x.1 = some stp)
    (hbid : stp.current_bid = some bx)
    (hpaint : a.painting_order.get? a.current_round = some painting) :
    compute_round_winner a tb2 = some { a with
      players := updatePlayer a.players x.1 (fun st =>
        { st with
          budget := st.budget - bx
          paintings_owned := fun art =>
            if art = painting then st.paintings_owned art + 1
            else st.paintings_owned art })
      amounts_paid := a.amounts_paid ++ [bx]
      winner_ids := a.winner_ids ++ [x.1] } := by
  unfold compute_round_winner
  rw [hk2, Option.some_bind]
  simp only [hs2, List.length_cons, hwp]
  have hidx : min 1 (rest.length + 1) - 1 = 0 := by omega
  rw [hidx]
  simp only [List.get?_cons_zero, Option.some_bind]
  rw [hlp, Option.some_bind, hbid, Option.some_bind, hpaint, Option.map_some']

theorem start_if_possible_post (s0 : ArenaState) :
    (start_if_possible s0).sufficient_players_event = true ↔
      ((start_if_possible s0).in_game = false ∧
        2 ≤ (start_if_possible s0).participants_waiting.card) := by
  obtain ⟨hw, _, ha, _, hiff⟩ := start_if_possible_spec s0
  rw [hiff, hw]
  unfold ArenaState.in_game
  rw [ha]

/-! ### Claim theorems -/

/-- C2 (amended): after every `register` and after every auction-finish
operation the start-eligible signal is set iff no auction is active and
the waiting count is at least 2.  (The original claim also asserted this
after every `deregister`; the source's `Arena.deregister` does not
re-evaluate `_start_if_possible`, see the counterexample.) -/
theorem c2_signal_after_register_and_finish (s : ArenaState) (p : PlayerId) :
    ((Arena.register s p).sufficient_players_event = true ↔
      ((Arena.register s p).in_game = false ∧
        2 ≤ (Arena.register s p).participants_waiting.card)) ∧
    ((finish_auction s).sufficient_players_event = true ↔
      ((finish_auction s).in_game = false ∧
        2 ≤ (finish_auction s).participants_waiting.card)) :=
  ⟨start_if_possible_post _, start_if_possible_post _⟩

/-- C2 counterexample: starting from the initial arena, after
`register 0; register 1; deregister 0` the signal is still set even
though only one participant is waiting and no auction is active — so
the signal is not "set iff eligible" after a deregister. -/
theorem c2_deregister_stale_signal :
    c2_state.sufficient_players_event = true ∧
    c2_state.in_game = false ∧
    c2_state.participants_waiting.card = 1 := by
  decide

/-- C7: for a participant in the roster, `register_bid` accepts exactly
the amounts within the remaining budget, records the amount as the
current bid on acceptance and resets the bid to 0 on rejection, and
never changes any budget. -/
theorem c7_register_bid_contract (a : Auctioneer) (p : PlayerId)
    (st : ParticipantState) (amount : ℤ)
    (h : lookupPlayer a.players p = some st) :
    ∃ ok a', register_bid a p amount = some (ok, a') ∧
      (ok = true ↔ amount ≤ st.budget) ∧
      lookupPlayer a'.players p = some { st with
        current_bid := some (if amount ≤ st.budget then amount else 0) } ∧
      (∀ q, q ≠ p → lookupPlayer a'.players q = lookupPlayer a.players q) ∧
      (∀ q stq stq', lookupPlayer a.players q = some stq →
        lookupPlayer a'.players q = some stq' → stq'.budget = stq.budget) := by
  by_cases hle : amount ≤ st.budget
  · refine ⟨true, { a with players := updatePlayer a.players p (fun s => { s with current_bid := some amount }) }, by simp [register_bid, h, hle], by simp [hle], ?_, ?_, ?_⟩
    · rw [lookup_update, h, Option.map_some']
      simp [hle]
    · intro q hq
      rw [lookup_update]
      cases hl' : lookupPlayer a.players q with
      | none => rfl
      | some stq => simp [hq]
    · intro q stq stq' hq hq'
      rw [lookup_update, hq, Option.map_some'] at hq'
      have := Option.some.inj hq'
      by_cases hqp : q = p
      · rw [if_pos hqp] at this
        rw [← this]
      · rw [if_neg hqp] at this
        rw [← this]
  · refine ⟨false, { a with players := updatePlayer a.players p (fun s => { s with current_bid := some 0 }) }, by simp [register_bid, h, hle], by simp [hle], ?_, ?_, ?_⟩
    · rw [lookup_update, h, Option.map_some']
      simp [hle]
    · intro q hq
      rw [lookup_update]
      cases hl' : lookupPlayer a.players q with
      | none => rfl
      | some stq => simp [hq]
    · intro q stq stq' hq hq'
      rw [lookup_update, hq, Option.map_some'] at hq'
      have := Option.some.inj hq'
      by_cases hqp : q = p
      · rw [if_pos hqp] at this
        rw [← this]
      · rw [if_neg hqp] at this
        rw [← this]

/-- C7 witness: a participant with budget 100 bidding 150 is rejected,
their current bid resets to 0, and the budget stays 100. -/
theorem c7_register_bid_witness :
    (∃ ok a', register_bid c7_auctioneer 7 150 = some (ok, a') ∧
      (ok = true ↔ (150 : ℤ) ≤ c7_part.budget) ∧
      lookupPlayer a'.players 7 = some { c7_part with
        current_bid := some (if (150 : ℤ) ≤ c7_part.budget then 150 else 0) } ∧
      (∀ q, q ≠ 7 →
        lookupPlayer a'.players q = lookupPlayer c7_auctioneer.players q) ∧
      (∀ q stq stq', lookupPlayer c7_auctioneer.players q = some stq →
        lookupPlayer a'.players q = some stq' →
        stq'.budget = stq.budget)) ∧
    c7_part.budget = 100 ∧ ¬ ((150 : ℤ) ≤ c7_part.budget) ∧
    (if (150 : ℤ) ≤ c7_part.budget then (150 : ℤ) else 0) = 0 :=
  ⟨c7_register_bid_contract c7_auctioneer 7 c7_part 150 rfl, rfl,
    by decide, by decide⟩

/-- C8: every successful `finish_round` increments `current_round` by
exactly one and appends exactly one entry each to the winner-id and
amount-paid history lists. -/
theorem c8_finish_round_advances (a : Auctioneer) (tb : PlayerId → ℤ)
    (s : RoundSummary) (a' : Auctioneer)
    (h : finish_round a tb = some (s, a')) :
    a'.current_round = a.current_round + 1 ∧
    (∃ w, a'.winner_ids = a.winner_ids ++ [w]) ∧
    (∃ amt, a'.amounts_paid = a.amounts_paid ++ [amt]) := by
  obtain ⟨a1, a2, ha1, ha2, _, hcr, hwi, hap, _, _, _, _, _⟩ :=
    finish_round_parts h
  obtain ⟨w, wst, b, painting, _, _, _, _, hap1, hwi1, _, hcr1, _, _, _, _, _⟩ :=
    compute_round_winner_spec ha1
  obtain ⟨_, _, _, hcr2, _, hwi2, hap2, _, _, _⟩ := update_scores_spec ha2
  refine ⟨?_, ⟨w, ?_⟩, ⟨b, ?_⟩⟩
  · rw [hcr, hcr2, hcr1]
  · rw [hwi, hwi2, hwi1]
  · rw [hap, hap2, hap1]

/-- C8 witness: resolving the first round of the two-player demo game
advances the round counter from 0 to 1 and appends one history entry. -/
theorem c8_finish_round_witness :
    ∃ s a', finish_round demoStarted (fun _ => 0) = some (s, a') ∧
      a'.current_round = demoStarted.current_round + 1 ∧
      (∃ w, a'.winner_ids = demoStarted.winner_ids ++ [w]) ∧
      (∃ amt, a'.amounts_paid = demoStarted.amounts_paid ++ [amt]) := by
  have hsome : (finish_round demoStarted (fun _ => 0)).isSome = true := by
    decide
  cases hf : finish_round demoStarted (fun _ => 0) with
  | none => rw [hf] at hsome; cases hsome
  | some r =>
    refine ⟨r.1, r.2, rfl,
      c8_finish_round_advances demoStarted (fun _ => 0) r.1 r.2 ?_⟩
    rw [hf]

/-- C4: after `_update_scores`, a participant's score is 1 exactly when
their owned counts, sorted descending, dominate the target collection,
sorted descending, position by position; and whenever some participant
has score 1 the win flag is set. -/
theorem c4_score_iff_dominates (a a' : Auctioneer)
    (h : update_scores a = some a') :
    (∀ q st', lookupPlayer a'.players q = some st' →
      (st'.score = 1 ↔ dominates a.target_collection (ownedValues st'))) ∧
    ((∃ q st', lookupPlayer a'.players q = some st' ∧ st'.score = 1) →
      a'.player_won = true) := by
  obtain ⟨hlook, hkeys, hwon, _⟩ := update_scores_spec h
  constructor
  · intro q st' hq
    rw [hlook q] at hq
    cases hst : lookupPlayer a.players q with
    | none => rw [hst] at hq; cases hq
    | some st =>
      rw [hst, Option.some_bind] at hq
      obtain ⟨howned, _, _, m, hm, hscore⟩ := update_scores_player_spec hq
      have hov : ownedValues st' = ownedValues st := by
        unfold ownedValues
        rw [howned]
      have h1 : st'.score = 1 ↔ m < 1 := by
        rw [hscore]
        by_cases hm1 : m < 1 <;> simp [hm1]
      have h2 := maxList_lt_iff (c := 1) hm
      have h3 := needed_lt_iff (sortDescN a.target_collection)
        (sortDescN (ownedValues st))
      rw [hov]
      exact h1.trans (h2.trans h3)
  · rintro ⟨q, st', hq, hs1⟩
    rw [hwon]
    have hmem := lookup_mem hq
    have hany : a'.players.any (fun e => e.2.score == 1) = true :=
      List.any_eq_true.mpr ⟨(q, st'), hmem, by simp [hs1]⟩
    rw [hany, Bool.or_true]

set_option maxRecDepth 8000 in
/-- C4 witness: with target `(3, 3, 1, 1)`, the participant owning
`{Da Vinci: 3, Rembrandt: 3, Van Gogh: 1, Picasso: 1}` gets score 1
after `_update_scores`, the win flag is set, and the engine is finished
although `current_round = 5 < round_limit - 1`. -/
theorem c4_score_witness :
    update_scores c4_auctioneer = some c4_result ∧
    lookupPlayer c4_result.players 0 = some c4_result_state ∧
    c4_result_state.score = 1 ∧
    dominates c4_auctioneer.target_collection (ownedValues c4_result_state) ∧
    c4_result.player_won = true ∧
    finished c4_result = true ∧
    c4_result.current_round < c4_result.round_limit - 1 := by
  have h := c4_score_iff_dominates c4_auctioneer c4_result (by decide)
  have hdom : dominates c4_auctioneer.target_collection
      (ownedValues c4_result_state) := by decide
  have hl : lookupPlayer c4_result.players 0 = some c4_result_state := by
    decide
  have hscore : c4_result_state.score = 1 := (h.1 0 c4_result_state hl).mpr hdom
  exact ⟨by decide, hl, hscore, hdom, h.2 ⟨0, c4_result_state, hl, hscore⟩,
    by decide, by decide⟩

theorem start_round_lookup (a : Auctioneer) (q : PlayerId) :
    lookupPlayer (start_round a).players q =
      (lookupPlayer a.players q).map
        (fun st => { st with current_bid := some 0 }) :=
  lookup_mapStates a.players (fun st => { st with current_bid := some 0 }) q

theorem loopReach_round_limit {a : Auctioneer} (h : LoopReach a) :
    a.round_limit = 200 ∧ a.current_round ≤ 199 := by
  induction h with
  | init pids order => exact ⟨rfl, Nat.zero_le 199⟩
  | startR h ih => exact ih
  | registerR h hr ih =>
    obtain ⟨st, _, _, _, _, hcr, hrl, _, _, _, _, _⟩ := register_bid_spec hr
    rw [hrl, hcr]
    exact ih
  | @finishR a0 tb0 s0 a0' h hnf hf ih =>
    obtain ⟨a1, a2, ha1, ha2, _, hcr, _, _, _, hrl, _, _, _⟩ :=
      finish_round_parts hf
    obtain ⟨_, _, _, _, _, _, _, _, _, _, _, hcr1, hrl1, _, _, _, _⟩ :=
      compute_round_winner_spec ha1
    obtain ⟨_, _, _, hcr2, hrl2, _, _, _, _, _⟩ := update_scores_spec ha2
    have hne : a0.current_round ≠ 199 := by
      simp only [finished, Bool.or_eq_false_iff, beq_eq_false_iff_ne,
        ne_eq] at hnf
      rw [ih.1] at hnf
      have h1 := hnf.1
      omega
    refine ⟨by rw [hrl, hrl2, hrl1]; exact ih.1, ?_⟩
    rw [hcr, hcr2, hcr1]
    have := ih.2
    omega

/-- C9: the engine reports finished exactly when the current round
equals the round limit minus one or the win flag is set; and under the
coordinator's discipline of resolving rounds only while not finished,
the current round never exceeds the round limit minus one. -/
theorem c9_finished_iff_and_round_bound :
    (∀ a : Auctioneer, finished a = true ↔
      (a.current_round = a.round_limit - 1 ∨ a.player_won = true)) ∧
    (∀ a : Auctioneer, LoopReach a → a.current_round ≤ a.round_limit - 1) := by
  constructor
  · intro a
    unfold finished
    simp
  · intro a h
    obtain ⟨hrl, hcr⟩ := loopReach_round_limit h
    rw [hrl]
    omega

/-- C9 witness: the fresh two-player game is loop-reachable and
satisfies the round bound; it is not yet finished. -/
theorem c9_round_bound_witness :
    demoA.current_round ≤ demoA.round_limit - 1 ∧ finished demoA = false :=
  ⟨c9_finished_iff_and_round_bound.2 demoA (LoopReach.init [0, 1] demo_order),
    by decide⟩

/-- C5 (amended): starting from a fresh auction (where no bids are set)
and restricting `register_bid` to non-negative amounts, no engine
operation ever increases any participant's budget.  (The original
claim's "any amount" fails for negative bids, see the counterexample.) -/
theorem c5_budgets_nonincreasing :
    (∀ pids order, bidsNonneg (mkAuctioneer pids order)) ∧
    (∀ a op a', opAmountNonneg op → bidsNonneg a →
      engineStep a op = some a' →
      bidsNonneg a' ∧
      (∀ q st st', lookupPlayer a.players q = some st →
        lookupPlayer a'.players q = some st' → st'.budget ≤ st.budget)) := by
  constructor
  · intro pids order q st b hl hb
    rw [lookup_const hl] at hb
    cases hb
  · intro a op a' hnn hbids hstep
    cases op with
    | startRound =>
      have ha' : start_round a = a' := Option.some.inj hstep
      subst ha'
      constructor
      · intro q st b hl hb
        rw [start_round_lookup] at hl
        cases hst : lookupPlayer a.players q with
        | none => rw [hst] at hl; cases hl
        | some st0 =>
          rw [hst, Option.map_some'] at hl
          rw [← Option.some.inj hl] at hb
          rw [← Option.some.inj hb]
      · intro q st st' hst hst'
        rw [start_round_lookup, hst, Option.map_some'] at hst'
        rw [← Option.some.inj hst']
    | registerBid p amount =>
      obtain ⟨pr, hpr, ha'⟩ := Option.map_eq_some'.mp hstep
      obtain ⟨st0, hlook0, _, hplayers, _⟩ := register_bid_spec hpr
      subst ha'
      constructor
      · intro q st b hl hb
        rw [hplayers, lookup_update] at hl
        cases hst : lookupPlayer a.players q with
        | none => rw [hst] at hl; cases hl
        | some stq =>
          rw [hst, Option.map_some'] at hl
          have hlst := Option.some.inj hl
          by_cases hqp : q = p
          · rw [if_pos hqp] at hlst
            rw [← hlst] at hb
            have hbeq := Option.some.inj hb
            by_cases hle : amount ≤ st0.budget
            · rw [if_pos hle] at hbeq
              rw [← hbeq]
              exact hnn
            · rw [if_neg hle] at hbeq
              rw [← hbeq]
          · rw [if_neg hqp] at hlst
            rw [← hlst] at hb
            exact hbids q stq b hst hb
      · intro q st st' hst hst'
        rw [hplayers, lookup_update, hst, Option.map_some'] at hst'
        have hlst := Option.some.inj hst'
        by_cases hqp : q = p
        · rw [if_pos hqp] at hlst
          rw [← hlst]
        · rw [if_neg hqp] at hlst
          rw [← hlst]
    | finishRound tb =>
      obtain ⟨pr, hpr, ha'⟩ := Option.map_eq_some'.mp hstep
      obtain ⟨w, b, ⟨wst, hwl, hwb⟩, hsome, heffect⟩ :=
        finish_round_budget_effect hpr
      have hbpos : 0 ≤ b := hbids w wst b hwl hwb
      subst ha'
      constructor
      · intro q st b' hl hb'
        have hqs : (lookupPlayer a.players q).isSome = true := by
          rw [← hsome q, hl]
          rfl
        cases hst : lookupPlayer a.players q with
        | none => rw [hst] at hqs; cases hqs
        | some st0 =>
          obtain ⟨hbid, _⟩ := heffect q st0 st hst hl
          exact hbids q st0 b' hst (hbid ▸ hb')
      · intro q st st' hst hst'
        obtain ⟨_, hbud⟩ := heffect q st st' hst hst'
        rw [hbud]
        by_cases hqw : q = w
        · rw [if_pos hqw]
          omega
        · rw [if_neg hqw]

/-- C5 witness: one concrete non-negative-amount step (starting the
round of the fresh two-player game) keeps all bids non-negative and
does not increase any budget. -/
theorem c5_budgets_witness :
    opAmountNonneg EngineOp.startRound ∧
    engineStep demoA EngineOp.startRound = some demoStarted ∧
    bidsNonneg demoStarted ∧
    (∀ q st st', lookupPlayer demoA.players q = some st →
      lookupPlayer demoStarted.players q = some st' →
      st'.budget ≤ st.budget) := by
  have h1 := c5_budgets_nonincreasing.1 [0, 1] demo_order
  have h2 := c5_budgets_nonincreasing.2 demoA EngineOp.startRound demoStarted
    trivial h1 (by decide)
  exact ⟨trivial, by decide, h2.1, h2.2⟩

/-- C5 counterexample: `register_bid` accepts negative amounts (they
are below the budget), and a winning negative bid is subtracted from
the winner's budget, increasing it: after bids −5 and −9 the winner's
budget rises from 1001 to 1006. -/
theorem c5_negative_bid_counterexample :
    (runOps demoA [EngineOp.startRound, EngineOp.registerBid 0 (-5),
        EngineOp.registerBid 1 (-9),
        EngineOp.finishRound (fun _ => 0)]).bind
      (fun a' => (lookupPlayer a'.players 0).map (fun st => st.budget)) =
      some 1006 ∧
    (lookupPlayer demoA.players 0).map (fun st => st.budget) = some 1001 ∧
    ¬ ((1006 : ℤ) ≤ 1001) := by
  decide

theorem eReach_invariant {f : Bool} {a : Auctioneer} (h : EReach f a) :
    budgetsNonneg a ∧ (f = true → bidsWithinBudget a) := by
  induction h with
  | init pids order =>
    constructor
    · intro q st hl
      rw [lookup_const hl]
      norm_num [mkParticipantState]
    · intro hf
      cases hf
  | @startR f0 a0 h ih =>
    obtain ⟨hbud, _⟩ := ih
    have hsr : ∀ q st, lookupPlayer (start_round a0).players q = some st →
        ∃ st0, lookupPlayer a0.players q = some st0 ∧
          st = { st0 with current_bid := some 0 } := by
      intro q st hl
      rw [start_round_lookup] at hl
      cases hst : lookupPlayer a0.players q with
      | none => rw [hst] at hl; cases hl
      | some st0 =>
        rw [hst, Option.map_some'] at hl
        exact ⟨st0, rfl, (Option.some.inj hl).symm⟩
    constructor
    · intro q st hl
      obtain ⟨st0, hst0, hval⟩ := hsr q st hl
      rw [hval]
      exact hbud q st0 hst0
    · intro _ q st hl
      obtain ⟨st0, hst0, hval⟩ := hsr q st hl
      rw [hval]
      exact ⟨0, rfl, hbud q st0 hst0⟩
  | @registerR f0 a0 p amount ok a0' h hr ih =>
    obtain ⟨hbud, hwithin⟩ := ih
    obtain ⟨st0, hlook0, _, hplayers, _⟩ := register_bid_spec hr
    have hup : ∀ q st, lookupPlayer a0'.players q = some st →
        ∃ stq, lookupPlayer a0.players q = some stq ∧
          st = (if q = p then { stq with current_bid := some (if amount ≤ st0.budget then amount else 0) } else stq) := by
      intro q st hl
      rw [hplayers, lookup_update] at hl
      cases hst : lookupPlayer a0.players q with
      | none => rw [hst] at hl; cases hl
      | some stq =>
        rw [hst, Option.map_some'] at hl
        exact ⟨stq, rfl, (Option.some.inj hl).symm⟩
    constructor
    · intro q st hl
      obtain ⟨stq, hstq, hval⟩ := hup q st hl
      rw [hval]
      by_cases hqp : q = p
      · rw [if_pos hqp]
        exact hbud q stq hstq
      · rw [if_neg hqp]
        exact hbud q stq hstq
    · intro hft q st hl
      obtain ⟨stq, hstq, hval⟩ := hup q st hl
      by_cases hqp : q = p
      · rw [hval, if_pos hqp]
        have hst0q : stq = st0 := by
          rw [hqp] at hstq
          exact Option.some.inj (hstq.symm.trans hlook0)
        by_cases hle : amount ≤ st0.budget
        · rw [if_pos hle]
          refine ⟨amount, rfl, ?_⟩
          rw [hst0q]
          exact hle
        · rw [if_neg hle]
          exact ⟨0, rfl, hbud q stq hstq⟩
      · rw [hval, if_neg hqp]
        exact hwithin hft q stq hstq
  | @finishR a0 tb0 s0 a0' h hf ih =>
    obtain ⟨hbud, hwithin⟩ := ih
    have hw := hwithin rfl
    obtain ⟨w, b, ⟨wst, hwl, hwb⟩, hsome, heffect⟩ :=
      finish_round_budget_effect hf
    obtain ⟨bw, hbw, hble⟩ := hw w wst hwl
    have hbbw : b = bw := Option.some.inj (hwb.symm.trans hbw)
    constructor
    · intro q st' hl'
      have hqs : (lookupPlayer a0.players q).isSome = true := by
        rw [← hsome q, hl']
        rfl
      cases hst : lookupPlayer a0.players q with
      | none => rw [hst] at hqs; cases hqs
      | some st0 =>
        obtain ⟨_, hbudget⟩ := heffect q st0 st' hst hl'
        rw [hbudget]
        by_cases hqw : q = w
        · rw [if_pos hqw]
          have hst0w : st0 = wst := by
            rw [hqw] at hst
            exact Option.some.inj (hst.symm.trans hwl)
          rw [hst0w]
          omega
        · rw [if_neg hqw]
          exact hbud q st0 hst
    · intro hfalse
      cases hfalse

/-- C6 (amended): in every engine state reachable by operation
sequences following the coordinator's round discipline (each
`finish_round` happens inside a round opened by `start_round`, at most
once per round, as `Arena.game_loop` does), every budget is
non-negative.  (The original claim's "any sequence" fails for two
consecutive `finish_round` calls, see the counterexample.) -/
theorem c6_budgets_nonneg (f : Bool) (a : Auctioneer) (h : EReach f a) :
    ∀ q st, lookupPlayer a.players q = some st → 0 ≤ st.budget :=
  (eReach_invariant h).1

/-- C6 witness: after start-round, an accepted bid of 1000 by player 0
and one round resolution, the reached state is round-disciplined and
player 0's budget is 1, which the theorem certifies as non-negative. -/
theorem c6_budgets_witness :
    register_bid demoStarted 0 1000 = some (true, c6_mid) ∧
    finish_round c6_mid (fun _ => 0) = some (c6_finpair.1, c6_finpair.2) ∧
    lookupPlayer c6_finpair.2.players 0 = some c6_fin_state ∧
    c6_fin_state.budget = 1 ∧
    0 ≤ c6_fin_state.budget := by
  have hr1 : register_bid demoStarted 0 1000 = some (true, c6_mid) := by
    decide
  have hf1 : finish_round c6_mid (fun _ => 0) =
      some (c6_finpair.1, c6_finpair.2) := by decide
  have e3 : EReach false c6_finpair.2 :=
    EReach.finishR
      (EReach.registerR (EReach.startR (EReach.init [0, 1] demo_order)) hr1)
      hf1
  exact ⟨hr1, hf1, by decide, by decide,
    c6_budgets_nonneg false c6_finpair.2 e3 0 c6_fin_state (by decide)⟩

/-- C6 counterexample: the claim quantifies over any operation
sequence; two consecutive `finish_round` calls (no `start_round`
between them) charge the winner's stale bid twice and drive player 0's
budget to −999. -/
theorem c6_double_finish_counterexample :
    (runOps demoA [EngineOp.startRound, EngineOp.registerBid 0 1000,
        EngineOp.finishRound (fun _ => 0),
        EngineOp.finishRound (fun _ => 0)]).bind
      (fun a' => (lookupPlayer a'.players 0).map (fun st => st.budget)) =
      some (-999) ∧
    ((-999 : ℤ) < 0) := by
  decide

/-- C3: with the source's winner-pays rank 1, the resolved winner holds
a maximal current bid and pays exactly their own bid (the amount at
sorted position rank − 1 = 0 of the descending order), which is
deducted from their budget while all other participants are untouched;
and any participant holding a maximal bid is selected under some
tie-break draw, so ties are broken by the random draw rather than by id
or submission order. -/
theorem c3_winner_highest_bid_pays_own (a : Auctioneer) (tb : PlayerId → ℤ)
    (a' : Auctioneer) (hwp : a.winner_pays = 1)
    (hnd : (a.players.map Prod.fst).Nodup)
    (h : compute_round_winner a tb = some a') :
    (∃ w wst b,
      lookupPlayer a.players w = some wst ∧ wst.current_bid = some b ∧
      a'.winner_ids = a.winner_ids ++ [w] ∧
      a'.amounts_paid = a.amounts_paid ++ [b] ∧
      (∀ q st bq, lookupPlayer a.players q = some st →
        st.current_bid = some bq → bq ≤ b) ∧
      (∃ wst', lookupPlayer a'.players w = some wst' ∧
        wst'.budget = wst.budget - b) ∧
      (∀ q, q ≠ w → lookupPlayer a'.players q = lookupPlayer a.players q)) ∧
    (∀ p stp bp, lookupPlayer a.players p = some stp →
      stp.current_bid = some bp →
      (∀ q st bq, lookupPlayer a.players q = some st →
        st.current_bid = some bq → bq ≤ bp) →
      ∃ tb2 a2, compute_round_winner a tb2 = some a2 ∧
        a2.winner_ids = a.winner_ids ++ [p]) := by
  obtain ⟨w, wst, b, painting, hwl, hwb, hpaint, hplayers, hap, hwi, _, _, _,
    _, _, _, hmax⟩ := compute_round_winner_spec h
  constructor
  · refine ⟨w, wst, b, hwl, hwb, hwi, hap, hmax hwp hnd, ?_, ?_⟩
    · rw [hplayers, lookup_update, hwl, Option.map_some']
      refine ⟨_, rfl, ?_⟩
      simp
    · intro q hq
      rw [hplayers, lookup_update]
      cases hl : lookupPlayer a.players q with
      | none => rfl
      | some stq => simp [hq]
  · intro p stp bp hlp hbp hmaxp
    have h' := h
    unfold compute_round_winner at h'
    obtain ⟨keyed, hkeyed, _⟩ := Option.bind_eq_some.mp h'
    obtain ⟨keyed2, hkeyed2⟩ := bidKeysList_some_of_some tb
      (fun q => if q = p then 1 else 0) a.players keyed hkeyed
    obtain ⟨hkeys2, hmem2, hall2⟩ := bidKeysList_spec
      (fun q => if q = p then 1 else 0) a.players keyed2 hkeyed2
    obtain ⟨bp', hbp', hpmem⟩ := hall2 (p, stp) (lookup_mem hlp)
    have hbp'bp : bp' = bp := Option.some.inj (hbp'.symm.trans hbp)
    subst hbp'bp
    simp only [if_pos rfl] at hpmem
    have hdom : ∀ y ∈ keyed2, y ≠ ((p, (bp', 1)) : PlayerId × (ℤ × ℤ)) →
        qkeyLt y.2 (bp', 1) := by
      rintro ⟨y1, y21, y22⟩ hy hne
      obtain ⟨sty, hymem, hybid, hytb⟩ := hmem2 (y1, (y21, y22)) hy
      simp only at hybid hytb
      by_cases hyp : y1 = p
      · exfalso
        have hentry : ((y1, sty) : PlayerId × ParticipantState) = (p, stp) :=
          nodup_keys_entry_eq hnd hymem (lookup_mem hlp) hyp
        have hsty : sty = stp := congrArg Prod.snd hentry
        rw [hsty] at hybid
        have hy21 : y21 = bp' := Option.some.inj (hybid.symm.trans hbp)
        rw [hyp, if_pos rfl] at hytb
        exact hne (by rw [hyp, hy21, hytb])
      · rw [if_neg hyp] at hytb
        have hly : lookupPlayer a.players y1 = some sty :=
          lookup_of_mem_nodup hnd hymem
        have hle := hmaxp y1 sty y21 hly hybid
        rcases lt_or_eq_of_le hle with hlt | heq
        · exact Or.inl hlt
        · refine Or.inr ⟨heq, ?_⟩
          rw [hytb]
          norm_num
    obtain ⟨rest, hs2⟩ := insertionSort_head_of_strict_max hpmem hdom
    refine ⟨fun q => if q = p then 1 else 0, _,
      compute_round_winner_eq_of_sorted_head hwp hkeyed2 hs2 hlp hbp hpaint,
      rfl⟩

/-- C3 witness: with bids 5 (player 0) and 3 (player 1), player 0 wins,
pays their own bid 5, and their budget drops from 1001 to 996; and the
maximal bidder can be produced as winner by some tie-break draw. -/
theorem c3_winner_witness :
    compute_round_winner c3_pre (fun _ => 0) = some c3_res ∧
    c3_res.winner_ids = [0] ∧
    c3_res.amounts_paid = [5] ∧
    (lookupPlayer c3_res.players 0).map (fun st => st.budget) = some 996 ∧
    (∃ tb2 a2, compute_round_winner c3_pre tb2 = some a2 ∧
      a2.winner_ids = [0]) := by
  have h := c3_winner_highest_bid_pays_own c3_pre (fun _ => 0) c3_res
    (by decide) (by decide) (by decide)
  have hcb0 : c3_s0.current_bid = some 5 := by decide
  have hcb1 : c3_s1.current_bid = some 3 := by decide
  have hmax : ∀ q st bq, lookupPlayer c3_pre.players q = some st →
      st.current_bid = some bq → bq ≤ 5 := by
    intro q st bq hl hb
    have hmem := lookup_mem hl
    have hps : c3_pre.players = [(0, c3_s0), (1, c3_s1)] := by decide
    rw [hps] at hmem
    rcases List.mem_cons.mp hmem with heq | hmem'
    · obtain ⟨_, hst⟩ := Prod.mk.inj heq
      rw [hst] at hb
      have h5 : (5 : ℤ) = bq := Option.some.inj (hcb0.symm.trans hb)
      omega
    · rcases List.mem_cons.mp hmem' with heq | hnil
      · obtain ⟨_, hst⟩ := Prod.mk.inj heq
        rw [hst] at hb
        have h3 : (3 : ℤ) = bq := Option.some.inj (hcb1.symm.trans hb)
        omega
      · cases hnil
  obtain ⟨tb2, a2, hc2, hwin2⟩ := h.2 0 c3_s0 5 (by decide) hcb0 hmax
  refine ⟨by decide, by decide, by decide, by decide, tb2, a2, hc2, ?_⟩
  rw [hwin2]
  decide

/-- C1 (amended): during `_on_bid_reply` the barrier is notified exactly
when the sender is not in the waiting pool, the bid is within budget
(accepted), and the accepted-bid counter reaches the in-game
participant count; rejected bids and bids from waiting participants
never advance the counter.  (The counter counts accepted-bid events,
not distinct participants, and is only reset on release — see the
counterexample for the difference from the original claim.) -/
theorem c1_barrier_release_rule (s : ArenaState) (p : PlayerId) (amount : ℤ)
    (a : Auctioneer) (st : ParticipantState)
    (ha : s.auction = some a) (hst : lookupPlayer a.players p = some st) :
    ∃ s' fired, on_bid_reply s p amount = some (s', fired) ∧
      (fired = true ↔ (p ∉ s.participants_waiting ∧ amount ≤ st.budget ∧
        s.bids_received + 1 = s.participants_in_game.card)) ∧
      (fired = true → s'.bids_received = 0) ∧
      (p ∈ s.participants_waiting → s' = s) ∧
      (p ∉ s.participants_waiting → ¬ amount ≤ st.budget →
        s'.bids_received = s.bids_received) ∧
      (p ∉ s.participants_waiting → amount ≤ st.budget → fired = false →
        s'.bids_received = s.bids_received + 1) := by
  by_cases hw : p ∈ s.participants_waiting
  · refine ⟨s, false, by simp [on_bid_reply, hw], by simp [hw], ?_, ?_, ?_, ?_⟩
    · intro hc; cases hc
    · intro _; rfl
    · intro hc; exact absurd hw hc
    · intro hc; exact absurd hw hc
  · by_cases hle : amount ≤ st.budget
    · have hreg : register_bid a p amount = some (true, { a with players := updatePlayer a.players p (fun s0 => { s0 with current_bid := some amount }) }) := by
        simp [register_bid, hst, hle]
      have hor : on_bid_reply s p amount =
          some (count_bids { s with auction := some { a with players := updatePlayer a.players p (fun s0 => { s0 with current_bid := some amount }) } }) := by
        simp [on_bid_reply, hw, ha, hreg]
      by_cases hc : s.bids_received + 1 = s.participants_in_game.card
      · have hcb : count_bids { s with auction := some { a with players := updatePlayer a.players p (fun s0 => { s0 with current_bid := some amount }) } } = ({ s with auction := some { a with players := updatePlayer a.players p (fun s0 => { s0 with current_bid := some amount }) }, bids_received := 0 }, true) := by
          simp [count_bids, hc]
        refine ⟨_, _, hor.trans (by rw [hcb]), ?_, ?_, ?_, ?_, ?_⟩
        · simp [hw, hle, hc]
        · intro _; rfl
        · intro hin; exact absurd hin hw
        · intro _ hcon; exact absurd hle hcon
        · intro _ _ hff; cases hff
      · have hcb : count_bids { s with auction := some { a with players := updatePlayer a.players p (fun s0 => { s0 with current_bid := some amount }) } } = ({ s with auction := some { a with players := updatePlayer a.players p (fun s0 => { s0 with current_bid := some amount }) }, bids_received := s.bids_received + 1 }, false) := by
          simp [count_bids, hc]
        refine ⟨_, _, hor.trans (by rw [hcb]), ?_, ?_, ?_, ?_, ?_⟩
        · simp [hc]
        · intro hff; cases hff
        · intro hin; exact absurd hin hw
        · intro _ hcon; exact absurd hle hcon
        · intro _ _ _; rfl
    · have hreg : register_bid a p amount = some (false, { a with players := updatePlayer a.players p (fun s0 => { s0 with current_bid := some 0 }) }) := by
        simp [register_bid, hst, hle]
      refine ⟨{ s with auction := some { a with players := updatePlayer a.players p (fun s0 => { s0 with current_bid := some 0 }) } }, false, by simp [on_bid_reply, hw, ha, hreg], by simp [hle], ?_, ?_, ?_, ?_⟩
      · intro hff; cases hff
      · intro hin; exact absurd hin hw
      · intro _ _; rfl
      · intro _ hcon; exact absurd hcon hle

/-- C1 witness: in a round with two in-game players and no bids counted
yet, a first accepted bid does not notify the barrier (the counter
reaches 1 of 2), exactly as the release rule states. -/
theorem c1_barrier_witness :
    (∃ s' fired, on_bid_reply c1_arena 0 5 = some (s', fired) ∧
      (fired = true ↔ ((0 : PlayerId) ∉ c1_arena.participants_waiting ∧
        (5 : ℤ) ≤ c1_p0_state.budget ∧
        c1_arena.bids_received + 1 = c1_arena.participants_in_game.card)) ∧
      (fired = true → s'.bids_received = 0) ∧
      ((0 : PlayerId) ∈ c1_arena.participants_waiting → s' = c1_arena) ∧
      ((0 : PlayerId) ∉ c1_arena.participants_waiting →
        ¬ (5 : ℤ) ≤ c1_p0_state.budget →
        s'.bids_received = c1_arena.bids_received) ∧
      ((0 : PlayerId) ∉ c1_arena.participants_waiting →
        (5 : ℤ) ≤ c1_p0_state.budget → fired = false →
        s'.bids_received = c1_arena.bids_received + 1)) ∧
    ¬ (c1_arena.bids_received + 1 = c1_arena.participants_in_game.card) :=
  ⟨c1_barrier_release_rule c1_arena 0 5 demoStarted c1_p0_state rfl
    (by decide), by decide⟩

/-- C1 counterexample: with players 0 and 1 both in game, two accepted
bids from player 0 alone release the barrier — the barrier counts
accepted-bid events, not distinct in-round participants, so it is
released although player 1 never submitted a bid this round. -/
theorem c1_duplicate_bids_counterexample :
    (run_replies c1_arena [(0, 5), (0, 7)]).map Prod.snd = some true ∧
    (1 : PlayerId) ∈ c1_arena.participants_in_game ∧
    ([((0 : PlayerId), (5 : ℤ)), (0, 7)].all (fun e => e.1 == 0)) = true := by
  decide

/-- C10: the engine's roster ids are fixed by every engine operation;
`Arena.deregister` removes a participant from the coordinator's in-game
mapping but leaves the engine state untouched; `start_round` still
resets the bid of every roster participant (including a deregistered
one) to 0; and concretely, after deregistering player 1 the engine is
unchanged, player 1 can still win an all-zero-bid round under a
favourable tie-break, and still appears in
`compute_auction_winners`. -/
theorem c10_roster_fixed :
    (∀ a op a', engineStep a op = some a' →
      a'.players.map Prod.fst = a.players.map Prod.fst) ∧
    (∀ s p, (Arena.deregister s p).auction = s.auction ∧
      p ∉ (Arena.deregister s p).participants_in_game) ∧
    (∀ a p st, lookupPlayer a.players p = some st →
      ∃ st', lookupPlayer (start_round a).players p = some st' ∧
        st'.current_bid = some 0) ∧
    ((Arena.deregister c10_arena 1).auction = some demoA ∧
      (1 : PlayerId) ∉ (Arena.deregister c10_arena 1).participants_in_game ∧
      compute_round_winner demoStarted (fun q => if q = 1 then 1 else 0) =
        some c10_res ∧
      c10_res.winner_ids = [1] ∧
      (1 : PlayerId) ∈ compute_auction_winners demoA) := by
  refine ⟨?_, ?_, ?_, by decide, by decide, by decide, by decide, by decide⟩
  · intro a op a' hstep
    cases op with
    | startRound =>
      rw [← Option.some.inj hstep]
      exact keys_mapStates a.players (fun st0 => { st0 with current_bid := some 0 })
    | registerBid p amount =>
      obtain ⟨pr, hpr, ha'⟩ := Option.map_eq_some'.mp hstep
      obtain ⟨st0, _, _, hplayers, _⟩ := register_bid_spec hpr
      rw [← ha', hplayers, keys_update]
    | finishRound tb =>
      obtain ⟨pr, hpr, ha'⟩ := Option.map_eq_some'.mp hstep
      obtain ⟨a1, a2, ha1, ha2, hpl, _, _, _, _, _, _, _, _⟩ :=
        finish_round_parts hpr
      obtain ⟨_, _, _, _, _, _, _, hps1, _, _, _, _, _, _, _, _, _⟩ :=
        compute_round_winner_spec ha1
      obtain ⟨_, hkeys2, _, _, _, _, _, _, _, _⟩ := update_scores_spec ha2
      rw [← ha', hpl, hkeys2, hps1, keys_update]
  · intro s p
    exact ⟨rfl, Finset.not_mem_erase p s.participants_in_game⟩
  · intro a p st hl
    refine ⟨{ st with current_bid := some 0 }, ?_, rfl⟩
    rw [start_round_lookup, hl, Option.map_some']

/-- C10 witness: a concrete engine step preserves the roster ids, and
the reset applies to the deregistered player 1. -/
theorem c10_roster_witness :
    engineStep demoA EngineOp.startRound = some demoStarted ∧
    demoStarted.players.map Prod.fst = demoA.players.map Prod.fst ∧
    (∃ st', lookupPlayer (start_round demoA).players 1 = some st' ∧
      st'.current_bid = some 0) := by
  refine ⟨by decide, ?_, ?_⟩
  · exact c10_roster_fixed.1 demoA EngineOp.startRound demoStarted (by decide)
  · exact c10_roster_fixed.2.2.1 demoA 1 (mkParticipantState 1001) (by decide)

end CS404X
